import Mathlib

/-!
Verification of the process-orchestration core of the flox repository:
the make-driven manifest builder (`providers/build.rs`), the container
sink (`commands/containerize/mod.rs`) and the nix command line wrapper
(`crates/runix/src/command_line.rs`), shallowly embedded in Lean.

Conventions of the embedding:
* a Unix exit status is an `Int`; status `0` is success;
* an `io::Result` is `Except String _` with the OS error message as payload;
* a spawned child process is a record of the data the surrounding code
  can observe from it: the line-read results of its stdout and stderr
  pipes and its eventual exit status;
* the mpsc channel is modelled by the list of events each producer
  succeeds in sending, together with an `Interleave` relation stating
  which merged orders the single consumer may observe; dropping the
  receiver is modelled by a send budget: the number of sends that still
  succeed before every later send fails;
* a Rust panic (an `unwrap` on `None`) is `Option.none` in the result.
-/

namespace FloxSpec

/-- Exit status of a child process, as returned by wait: 0 means success. -/
abbrev ExitStatus := Int

/-- Mirrors `std::process::ExitStatus::success`: the status is zero. -/
def ExitStatus.success (s : ExitStatus) : Bool := (s : Int) == 0

/-- Mirrors the `Output` enum of `providers/build.rs`: a line of stdout,
a line of stderr, or the exit of the build process with its status. -/
inductive Output where
  | Stdout (line : String)
  | Stderr (line : String)
  | Exit (status : ExitStatus)
deriving DecidableEq

/-- The result of one `lines()` iteration on a pipe reader: `ok` is a
decoded line, `error` is a line-decoding failure with its message. -/
abbrev LineRead := Except String String

/-- Mirrors `read_output_to_channel` of `providers/build.rs`.  `lines`
are the successive results of `reader.lines()`; a decoding error is
logged and skipped (`continue`); each decoded line is sent as
`mk_output line`.  `budget` models the channel receiver: the number of
sends that still succeed; a send with budget 0 fails (receiver dropped)
and the loop breaks.  The value is the list of events actually sent. -/
def read_output_to_channel (lines : List LineRead) (mk_output : String → Output)
    (budget : Nat) : List Output :=
  match lines, budget with
  | [], _ => []
  | .error _ :: rest, b => read_output_to_channel rest mk_output b
  | .ok _ :: _, 0 => []
  | .ok line :: rest, b + 1 => mk_output line :: read_output_to_channel rest mk_output b

/-- The successfully decoded lines among a list of read results. -/
def okLines (lines : List LineRead) : List String :=
  lines.filterMap fun r => match r with | .ok s => some s | .error _ => none

/-- Events sent by a relay task whose receiver is never dropped: the
budget covers every possible send. -/
def relaySent (lines : List LineRead) (mk_output : String → Output) : List Output :=
  read_output_to_channel lines mk_output lines.length

/-- A child process as observed by `FloxBuildMk::build`: the line reads
obtained from its stdout and stderr pipes and its exit status. -/
structure Child where
  stdoutReads : List LineRead
  stderrReads : List LineRead
  status : ExitStatus

/-- `Interleave l r t`: `t` is a merge of `l` and `r` that preserves the
relative order inside each of `l` and `r` — the orders an mpsc channel
may deliver the sends of two producers in. -/
inductive Interleave : List Output → List Output → List Output → Prop where
  | nil : Interleave [] [] []
  | left {a l r t} : Interleave l r t → Interleave (a :: l) r (a :: t)
  | right {a l r t} : Interleave l r t → Interleave l (a :: r) (a :: t)

/-- The channel contents a full drain of the build output may observe:
some merge of the stdout relay events, the stderr relay events and the
single exit event sent by the exit-waiting thread. -/
def childDrain (c : Child) (t : List Output) : Prop :=
  ∃ es, Interleave (relaySent c.stderrReads Output.Stderr) [Output.Exit c.status] es ∧
    Interleave (relaySent c.stdoutReads Output.Stdout) es t

/-- Mirrors the `BuildOutput` struct: the receiving end of the relay
channel, holding the not yet consumed events in channel order. -/
structure BuildOutput where
  receiver : List Output

/-- Mirrors `Iterator::next` for `BuildOutput`: `receiver.recv().ok()` —
the next queued event, or `none` once the channel is empty and all
senders are gone. -/
def BuildOutput.next : BuildOutput → Option (Output × BuildOutput)
  | { receiver := [] } => none
  | { receiver := e :: rest } => some (e, { receiver := rest })

/-- The lines carried by the `Stdout` events of a drained sequence. -/
def stdoutLines (t : List Output) : List String :=
  t.filterMap fun e => match e with | .Stdout s => some s | _ => none

/-- The lines carried by the `Stderr` events of a drained sequence. -/
def stderrLines (t : List Output) : List String :=
  t.filterMap fun e => match e with | .Stderr s => some s | _ => none

/-- The statuses carried by the `Exit` events of a drained sequence. -/
def exitEvents (t : List Output) : List ExitStatus :=
  t.filterMap fun e => match e with | .Exit s => some s | _ => none

/-- An argument vector under construction, as `std::process::Command`
accumulates it: the program and its arguments in order. -/
structure Command where
  program : String
  args : List String
deriving DecidableEq

/-- The two environment-configured paths of `providers/build.rs`:
`FLOX_BUILD_MK` (the driver makefile) and `GNUMAKE_BIN` (the make binary). -/
structure BuildConfig where
  flox_build_mk : String
  gnumake_bin : String

/-- Mirrors `FloxBuildMk::base_command`: make, the driver makefile via
`-f`, the working directory via `-C`, and the `FLOX_ENV=` binding. -/
def FloxBuildMk.base_command (cfg : BuildConfig) (base_dir flox_env : String) : Command :=
  { program := cfg.gnumake_bin
    args := ["-f", cfg.flox_build_mk, "-C", base_dir, "FLOX_ENV=" ++ flox_env] }

/-- The argument vector `FloxBuildMk::build` hands to spawn: the base
command followed by the single goal "build" when `packages` is empty,
else one goal "build/<p>" per package, in order. -/
def FloxBuildMk.build_command (cfg : BuildConfig) (base_dir flox_env : String)
    (packages : List String) : Command :=
  let command := FloxBuildMk.base_command cfg base_dir flox_env
  if packages.isEmpty then
    { command with args := command.args ++ ["build"] }
  else
    { command with args := command.args ++ packages.map (fun p => "build/" ++ p) }

/-- The argument vector `FloxBuildMk::clean` hands to the OS: the base
command followed by the single goal "clean" when `packages` is empty,
else one goal "clean/<p>" per package, in order. -/
def FloxBuildMk.clean_command (cfg : BuildConfig) (base_dir flox_env : String)
    (packages : List String) : Command :=
  let command := FloxBuildMk.base_command cfg base_dir flox_env
  if packages.isEmpty then
    { command with args := command.args ++ ["clean"] }
  else
    { command with args := command.args ++ packages.map (fun p => "clean/" ++ p) }

/-- Captured output of a completed process, as `Command::output` returns
it after lossy UTF-8 conversion, plus the exit status. -/
structure CapturedOutput where
  stdout : String
  stderr : String
  status : ExitStatus

/-- The OS as the builder sees it: spawning a command yields a child
with piped stdout and stderr (or an OS error); running a command to
completion yields its captured output (or an OS error). -/
structure BuildOs where
  spawn : Command → Except String Child
  output : Command → Except String CapturedOutput

/-- Mirrors the `ManifestBuilderError` enum of `providers/build.rs`. -/
inductive ManifestBuilderError where
  | CallBuilderError (e : String)
  | RunClean (stdout stderr : String) (status : ExitStatus)
deriving DecidableEq

/-- Mirrors `FloxBuildMk::build`: build the argument vector and spawn;
a spawn failure is wrapped in `CallBuilderError`; on success the three
relay threads are started and the function returns at once with the
spawned child, whose possible full drains are described by `childDrain`.
The exit status of the child is never consulted here. -/
def FloxBuildMk.build (os : BuildOs) (cfg : BuildConfig) (base_dir flox_env : String)
    (packages : List String) : Except ManifestBuilderError Child :=
  match os.spawn (FloxBuildMk.build_command cfg base_dir flox_env packages) with
  | .error e => .error (.CallBuilderError e)
  | .ok child => .ok child

/-- Mirrors `FloxBuildMk::clean`: build the argument vector and run the
command to completion, collecting all output; a launch failure is
wrapped in `CallBuilderError`; a non-success exit status yields
`RunClean` carrying the captured stdout, stderr and status. -/
def FloxBuildMk.clean (os : BuildOs) (cfg : BuildConfig) (base_dir flox_env : String)
    (packages : List String) : Except ManifestBuilderError Unit :=
  match os.output (FloxBuildMk.clean_command cfg base_dir flox_env packages) with
  | .error e => .error (.CallBuilderError e)
  | .ok out =>
    if !ExitStatus.success out.status then
      .error (.RunClean out.stdout out.stderr out.status)
    else
      .ok ()

/-- A loader child process as `RuntimeSink` observes it: the stdin
handle when still present (holding the bytes written into the pipe so
far) and the exit status the child reports on wait. -/
structure ChildProc where
  stdin : Option (List Nat)
  status : ExitStatus

/-- Mirrors the `RuntimeSink` struct of `commands/containerize/mod.rs`:
a sink backed by a loader child process. -/
structure RuntimeSink where
  child : ChildProc

/-- Mirrors `Write::write` for `RuntimeSink`:
`self.child.stdin.as_mut().unwrap().write(buf)`. The value is `none`
when the unwrap panics because the stdin handle was taken; otherwise
the bytes go into the pipe and the count written is returned. -/
def RuntimeSink.write (s : RuntimeSink) (buf : List Nat) : Option (Nat × RuntimeSink) :=
  match s.child.stdin with
  | none => none
  | some bytes => some (buf.length, { child := { s.child with stdin := some (bytes ++ buf) } })

/-- Mirrors `Write::flush` for `RuntimeSink`: the same unwrap on the
stdin handle; flushing an unbuffered pipe handle always succeeds. -/
def RuntimeSink.flush (s : RuntimeSink) : Option RuntimeSink :=
  match s.child.stdin with
  | none => none
  | some _ => some s

/-- The failure `ContainerSink::wait` reports when the loader process
exits non-zero (named `UnderlyingProcessFailed` in the spec). -/
inductive SinkError where
  | UnderlyingProcessFailed
deriving DecidableEq

/-- Mirrors `ContainerSink::wait` for `RuntimeSink`: flush (through the
same unwrap), take and drop the stdin handle (closing the pipe and
signalling end of input), wait for the child to terminate, and fail
exactly when the exit status is not success. -/
def RuntimeSink.wait (s : RuntimeSink) : Option (Except SinkError Unit × RuntimeSink) :=
  match s.flush with
  | none => none
  | some s1 =>
    let s2 : RuntimeSink := { child := { s1.child with stdin := none } }
    if ExitStatus.success s2.child.status then some (.ok (), s2)
    else some (.error SinkError.UnderlyingProcessFailed, s2)

/-- Mirrors the `Runtime` enum: the container runtime to load into. -/
inductive Runtime where
  | Docker
  | Podman
deriving DecidableEq

/-- The program name `Runtime::to_writer` invokes. -/
def Runtime.cmd : Runtime → String
  | .Docker => "docker"
  | .Podman => "podman"

/-- Outcome of spawning `<cmd> load` with piped stdin: an OS error, or
a running child identified by the exit status it will later report. -/
abbrev SpawnLoad := Except String ExitStatus

/-- Mirrors `Runtime::to_writer`: spawn `<cmd> load` with
`Stdio::piped()` stdin; a spawn failure is reported with context;
otherwise the returned sink holds the child, whose stdin handle is
present (piped) and whose pipe holds no bytes yet. -/
def Runtime.to_writer (r : Runtime) (spawnResult : SpawnLoad) : Except String RuntimeSink :=
  match spawnResult with
  | .error e => .error ("Failed to call runtime " ++ r.cmd ++ ": " ++ e)
  | .ok status => .ok { child := { stdin := some [], status := status } }

/-- One operation of the `Write` interface of a sink. -/
inductive SinkOp where
  | write (buf : List Nat)
  | flush

/-- Run a sequence of `Write` operations on a sink; `none` as soon as
one of them panics on the missing stdin handle. -/
def RuntimeSink.applyOps (s : RuntimeSink) : List SinkOp → Option RuntimeSink
  | [] => some s
  | .write buf :: rest =>
    match s.write buf with
    | none => none
    | some (_, s1) => s1.applyOps rest
  | .flush :: rest =>
    match s.flush with
    | none => none
    | some s1 => s1.applyOps rest

/-- Output of the nix process as `run_in_nix` inspects it: the
`from_utf8` results on the captured stdout and stderr bytes, and the
exit status (which `run_in_nix` never consults). -/
structure NixProcOutput where
  stdout : Except String String
  stderr : Except String String
  status : ExitStatus

/-- The errors `NixCommandLine` can return: a propagated OS/io error, a
UTF-8 decoding error, or the ad hoc error raised when the captured nix
stderr output is non-empty. -/
inductive NixRunError where
  | IoError (e : String)
  | Utf8Error (e : String)
  | NixResponseError (msg : String)
deriving DecidableEq

/-- Mirrors `NixCommandLine::run_in_nix`: run the nix binary with
`args`, capturing its output (`output` is the OS); propagate an io
failure; decode stdout and stderr as UTF-8, propagating a decode
failure; then fail iff the decoded stderr is non-empty, else return the
decoded stdout. The exit status is never inspected. -/
def NixCommandLine.run_in_nix (output : List String → Except String NixProcOutput)
    (args : List String) : Except NixRunError String :=
  match output args with
  | .error e => .error (.IoError e)
  | .ok out =>
    match out.stdout with
    | .error e => .error (.Utf8Error e)
    | .ok nix_response =>
      match out.stderr with
      | .error e => .error (.Utf8Error e)
      | .ok nix_err_response =>
        if !nix_err_response.isEmpty then
          .error (.NixResponseError nix_err_response)
        else
          .ok nix_response

/-- A spawned nix child as `NixApi::run` observes it (stdout and stderr
are inherited, not captured): only the result of `wait` is visible — an
io error or the exit status. -/
structure NixChild where
  waitResult : Except String ExitStatus

/-- Mirrors `NixApi::run` for `NixCommandLine`: spawn the command with
inherited stdio (`spawn` is the OS); propagate a spawn failure; wait,
propagating an io failure of the wait call itself; the returned exit
status is bound to an ignored variable and the function returns unit. -/
def NixCommandLine.run (spawn : List String → Except String NixChild)
    (args : List String) : Except NixRunError Unit :=
  match spawn args with
  | .error e => .error (.IoError e)
  | .ok child =>
    match child.waitResult with
    | .error e => .error (.IoError e)
    | .ok _status => .ok ()

end FloxSpec

namespace FloxSpec

theorem read_output_to_channel_eq (lines : List LineRead) (mk_output : String → Output)
    (budget : Nat) :
    read_output_to_channel lines mk_output budget =
      ((okLines lines).take budget).map mk_output := by
  induction lines generalizing budget with
  | nil => simp [read_output_to_channel, okLines]
  | cons r rest ih =>
    cases r with
    | error e => simpa [read_output_to_channel, okLines, List.filterMap_cons] using ih budget
    | ok line =>
      cases budget with
      | zero => simp [read_output_to_channel, okLines, List.filterMap_cons]
      | succ b =>
        simpa [read_output_to_channel, okLines, List.filterMap_cons] using ih b

theorem relaySent_map_ok (xs : List String) (mk_output : String → Output) :
    relaySent (xs.map Except.ok) mk_output = xs.map mk_output := by
  have hok : okLines (xs.map Except.ok) = xs := by
    induction xs with
    | nil => rfl
    | cons x t ih => simpa [okLines, List.filterMap_cons] using ih
  have hlen : (xs.map (Except.ok (ε := String))).length = xs.length := by simp
  rw [relaySent, read_output_to_channel_eq, hok, hlen]
  rw [List.take_length]

theorem interleave_mem {l r t : List Output} (h : Interleave l r t) :
    ∀ a ∈ t, a ∈ l ∨ a ∈ r := by
  induction h with
  | nil => intro a ha; cases ha
  | left _ ih =>
    intro a ha
    rcases List.mem_cons.mp ha with rfl | ha
    · exact Or.inl (List.mem_cons_self _ _)
    · rcases ih a ha with h | h
      · exact Or.inl (List.mem_cons_of_mem _ h)
      · exact Or.inr h
  | right _ ih =>
    intro a ha
    rcases List.mem_cons.mp ha with rfl | ha
    · exact Or.inr (List.mem_cons_self _ _)
    · rcases ih a ha with h | h
      · exact Or.inl h
      · exact Or.inr (List.mem_cons_of_mem _ h)

theorem interleave_filterMap_right_none {f : Output → Option α} {l r t : List Output}
    (h : Interleave l r t) (hr : ∀ a ∈ r, f a = none) :
    t.filterMap f = l.filterMap f := by
  induction h with
  | nil => rfl
  | @left a l r t _ ih =>
    simp only [List.filterMap_cons]
    rw [ih hr]
  | @right a l r t _ ih =>
    simp only [List.filterMap_cons]
    rw [hr a (List.mem_cons_self _ _)]
    exact ih fun b hb => hr b (List.mem_cons_of_mem _ hb)

theorem interleave_filterMap_left_none {f : Output → Option α} {l r t : List Output}
    (h : Interleave l r t) (hl : ∀ a ∈ l, f a = none) :
    t.filterMap f = r.filterMap f := by
  induction h with
  | nil => rfl
  | @left a l r t _ ih =>
    simp only [List.filterMap_cons]
    rw [hl a (List.mem_cons_self _ _)]
    exact ih fun b hb => hl b (List.mem_cons_of_mem _ hb)
  | @right a l r t _ ih =>
    simp only [List.filterMap_cons]
    rw [ih hl]

theorem stdoutLines_map_stdout (xs : List String) :
    stdoutLines (xs.map Output.Stdout) = xs := by
  induction xs with
  | nil => rfl
  | cons x tl ih => simpa [stdoutLines, List.filterMap_cons] using ih

theorem stderrLines_map_stderr (xs : List String) :
    stderrLines (xs.map Output.Stderr) = xs := by
  induction xs with
  | nil => rfl
  | cons x tl ih => simpa [stderrLines, List.filterMap_cons] using ih

theorem mem_read_output_to_channel {lines : List LineRead} {mk_output : String → Output}
    {budget : Nat} {x : Output} (hx : x ∈ read_output_to_channel lines mk_output budget) :
    ∃ l, x = mk_output l := by
  rw [read_output_to_channel_eq] at hx
  rcases List.mem_map.mp hx with ⟨l, _, rfl⟩
  exact ⟨l, rfl⟩

theorem childDrain_exitEvents {c : Child} {t : List Output} (h : childDrain c t) :
    exitEvents t = [c.status] := by
  obtain ⟨es, h1, h2⟩ := h
  have hstep1 : exitEvents t = exitEvents es := by
    refine interleave_filterMap_left_none h2 ?_
    intro a ha
    rcases mem_read_output_to_channel ha with ⟨l, rfl⟩
    rfl
  have hstep2 : exitEvents es = exitEvents [Output.Exit c.status] := by
    refine interleave_filterMap_left_none h1 ?_
    intro a ha
    rcases mem_read_output_to_channel ha with ⟨l, rfl⟩
    rfl
  rw [hstep1, hstep2]
  rfl

end FloxSpec

namespace FloxSpec

/-- C1: a build process that writes the lines `outs` to stdout and the
lines `errs` to stderr and then exits with `status` gives, on any full
drain `t` of the returned output sequence, exactly the `Stdout` events
`outs` in stdout order, exactly the `Stderr` events `errs` in stderr
order, and exactly one `Exit` event carrying `status`; after the drain
a further pull on the exhausted sequence yields no more events. -/
theorem build_output_full_drain (outs errs : List String) (status : ExitStatus)
    (t : List Output)
    (h : childDrain { stdoutReads := outs.map Except.ok,
                      stderrReads := errs.map Except.ok, status := status } t) :
    stdoutLines t = outs ∧ stderrLines t = errs ∧ exitEvents t = [status] ∧
      BuildOutput.next { receiver := [] } = none := by
  have hexit : exitEvents t = [status] := childDrain_exitEvents h
  obtain ⟨es, h1, h2⟩ := h
  simp only [relaySent_map_ok] at h1 h2
  have hes : ∀ a ∈ es, a ∈ errs.map Output.Stderr ∨ a ∈ [Output.Exit status] :=
    interleave_mem h1
  have hstdout : stdoutLines t = outs := by
    have hnone : ∀ a ∈ es,
        (fun e => match e with | Output.Stdout s => some s | _ => none) a = none := by
      intro a ha
      rcases hes a ha with hmem | hmem
      · rcases List.mem_map.mp hmem with ⟨l, _, rfl⟩
        rfl
      · rcases List.mem_singleton.mp hmem with rfl
        rfl
    have := interleave_filterMap_right_none h2 hnone
    rw [stdoutLines, this, ← stdoutLines]
    exact stdoutLines_map_stdout outs
  have hstderr : stderrLines t = errs := by
    have hnone2 : ∀ a ∈ outs.map Output.Stdout,
        (fun e => match e with | Output.Stderr s => some s | _ => none) a = none := by
      intro a ha
      rcases List.mem_map.mp ha with ⟨l, _, rfl⟩
      rfl
    have hstep1 := interleave_filterMap_left_none h2 hnone2
    have hnone3 : ∀ a ∈ [Output.Exit status],
        (fun e => match e with | Output.Stderr s => some s | _ => none) a = none := by
      intro a ha
      rcases List.mem_singleton.mp ha with rfl
      rfl
    have hstep2 := interleave_filterMap_right_none h1 hnone3
    rw [stderrLines, hstep1, hstep2, ← stderrLines]
    exact stderrLines_map_stderr errs
  exact ⟨hstdout, hstderr, hexit, rfl⟩

theorem build_output_full_drain_witness :
    stdoutLines [Output.Stdout "a", Output.Stderr "c", Output.Stdout "b", Output.Exit 0] =
      ["a", "b"] ∧
    stderrLines [Output.Stdout "a", Output.Stderr "c", Output.Stdout "b", Output.Exit 0] =
      ["c"] ∧
    exitEvents [Output.Stdout "a", Output.Stderr "c", Output.Stdout "b", Output.Exit 0] =
      [(0 : Int)] ∧
    BuildOutput.next { receiver := [] } = none := by
  refine build_output_full_drain ["a", "b"] ["c"] 0 _ ?_
  refine ⟨[Output.Stderr "c", Output.Exit 0], ?_, ?_⟩
  · show Interleave [Output.Stderr "c"] [Output.Exit 0] [Output.Stderr "c", Output.Exit 0]
    exact Interleave.left (Interleave.right Interleave.nil)
  · show Interleave [Output.Stdout "a", Output.Stdout "b"]
      [Output.Stderr "c", Output.Exit 0]
      [Output.Stdout "a", Output.Stderr "c", Output.Stdout "b", Output.Exit 0]
    exact Interleave.left (Interleave.right (Interleave.left (Interleave.right Interleave.nil)))

/-- C4: for every base directory, environment context and target set,
the build argument vector is exactly the driver-makefile argument
`-f <makefile>`, the working-directory argument `-C base_dir`, the
context binding `FLOX_ENV=<env>`, followed by the single goal "build"
when the target set is empty and otherwise one goal "build/<name>" per
entry in the set, in order, duplicates included; and the analogous rule
with "clean" holds for the clean argument vector. -/
theorem build_clean_argument_vector (cfg : BuildConfig) (base_dir flox_env : String)
    (packages : List String) :
    (FloxBuildMk.build_command cfg base_dir flox_env packages).program = cfg.gnumake_bin ∧
    (FloxBuildMk.build_command cfg base_dir flox_env packages).args =
      ["-f", cfg.flox_build_mk, "-C", base_dir, "FLOX_ENV=" ++ flox_env] ++
        (if packages.isEmpty then ["build"]
         else packages.map (fun p => "build/" ++ p)) ∧
    (FloxBuildMk.clean_command cfg base_dir flox_env packages).program = cfg.gnumake_bin ∧
    (FloxBuildMk.clean_command cfg base_dir flox_env packages).args =
      ["-f", cfg.flox_build_mk, "-C", base_dir, "FLOX_ENV=" ++ flox_env] ++
        (if packages.isEmpty then ["clean"]
         else packages.map (fun p => "clean/" ++ p)) := by
  cases packages with
  | nil =>
    refine ⟨rfl, ?_, rfl, ?_⟩ <;>
      simp [FloxBuildMk.build_command, FloxBuildMk.clean_command, FloxBuildMk.base_command]
  | cons p ps =>
    refine ⟨rfl, ?_, rfl, ?_⟩ <;>
      simp [FloxBuildMk.build_command, FloxBuildMk.clean_command, FloxBuildMk.base_command]

/-- C6: a line that fails to decode is skipped and reading continues
with the next line: removing the decoding error from the read sequence
leaves the sent events unchanged (so the error terminates nothing and
is never sent), and every event a relay task ever sends is `mk_output`
of some decoded line — never a process failure. -/
theorem relay_skips_decode_errors (pre post lines : List LineRead) (e : String)
    (mk_output : String → Output) (budget : Nat) :
    read_output_to_channel (pre ++ Except.error e :: post) mk_output budget =
      read_output_to_channel (pre ++ post) mk_output budget ∧
    (∀ x ∈ read_output_to_channel lines mk_output budget, ∃ l, x = mk_output l) := by
  constructor
  · rw [read_output_to_channel_eq, read_output_to_channel_eq]
    have hok : okLines (pre ++ Except.error e :: post) = okLines (pre ++ post) := by
      simp [okLines, List.filterMap_append, List.filterMap_cons]
    rw [hok]
  · intro x hx
    exact mem_read_output_to_channel hx

theorem relay_skips_decode_errors_witness :
    read_output_to_channel [Except.ok "x", Except.error "bad utf8", Except.ok "y"]
        Output.Stdout 3 =
      read_output_to_channel [Except.ok "x", Except.ok "y"] Output.Stdout 3 :=
  (relay_skips_decode_errors [Except.ok "x"] [Except.ok "y"] [] "bad utf8"
    Output.Stdout 3).1

/-- C7: once the receiver is dropped after `k` successful sends, a relay
task sends nothing further: the events sent are exactly the first `k`
decoded lines, and any lines read after the first failed send (`extra`)
contribute nothing — the task stops at its first failed send instead of
blocking on the channel. -/
theorem relay_stops_after_receiver_drop (lines extra : List LineRead)
    (mk_output : String → Output) (k : Nat) (h : k ≤ (okLines lines).length) :
    read_output_to_channel (lines ++ extra) mk_output k =
      read_output_to_channel lines mk_output k ∧
    (read_output_to_channel lines mk_output k).length = k := by
  constructor
  · rw [read_output_to_channel_eq, read_output_to_channel_eq]
    have happ : okLines (lines ++ extra) = okLines lines ++ okLines extra := by
      simp [okLines, List.filterMap_append]
    rw [happ, List.take_append_of_le_length h]
  · rw [read_output_to_channel_eq]
    simp [List.length_take, Nat.min_eq_left h]

theorem relay_stops_after_receiver_drop_witness :
    read_output_to_channel [Except.ok "x", Except.ok "y", Except.ok "z"] Output.Stderr 1 =
      read_output_to_channel [Except.ok "x"] Output.Stderr 1 ∧
    (read_output_to_channel [Except.ok "x"] Output.Stderr 1).length = 1 :=
  relay_stops_after_receiver_drop [Except.ok "x"] [Except.ok "y", Except.ok "z"]
    Output.Stderr 1 (by decide)

theorem build_eq_of_spawn_error {os : BuildOs} {cfg : BuildConfig}
    {base_dir flox_env : String} {packages : List String} {e : String}
    (hs : os.spawn (FloxBuildMk.build_command cfg base_dir flox_env packages) =
      Except.error e) :
    FloxBuildMk.build os cfg base_dir flox_env packages =
      Except.error (ManifestBuilderError.CallBuilderError e) := by
  unfold FloxBuildMk.build
  rw [hs]

theorem build_eq_of_spawn_ok {os : BuildOs} {cfg : BuildConfig}
    {base_dir flox_env : String} {packages : List String} {child : Child}
    (hs : os.spawn (FloxBuildMk.build_command cfg base_dir flox_env packages) =
      Except.ok child) :
    FloxBuildMk.build os cfg base_dir flox_env packages = Except.ok child := by
  unfold FloxBuildMk.build
  rw [hs]

/-- C2: the only synchronous error of build is a launch failure: build
returns an error exactly when the spawn fails, and then it is the
`CallBuilderError` wrapping the OS error; when the spawn succeeds,
build returns the spawned child at once whatever its eventual exit
status, and that status surfaces only as the single `Exit` event of any
full drain of the output sequence. -/
theorem build_sync_error_iff_launch_failure (os : BuildOs) (cfg : BuildConfig)
    (base_dir flox_env : String) (packages : List String) :
    ((∃ err, FloxBuildMk.build os cfg base_dir flox_env packages = Except.error err) ↔
      ∃ e, os.spawn (FloxBuildMk.build_command cfg base_dir flox_env packages) =
        Except.error e) ∧
    (∀ e, os.spawn (FloxBuildMk.build_command cfg base_dir flox_env packages) =
        Except.error e →
      FloxBuildMk.build os cfg base_dir flox_env packages =
        Except.error (ManifestBuilderError.CallBuilderError e)) ∧
    (∀ child, os.spawn (FloxBuildMk.build_command cfg base_dir flox_env packages) =
        Except.ok child →
      FloxBuildMk.build os cfg base_dir flox_env packages = Except.ok child ∧
      ∀ t, childDrain child t → exitEvents t = [child.status]) := by
  refine ⟨?_, ?_, ?_⟩
  · constructor
    · rintro ⟨err, herr⟩
      cases hs : os.spawn (FloxBuildMk.build_command cfg base_dir flox_env packages) with
      | error e => exact ⟨e, rfl⟩
      | ok child =>
        rw [build_eq_of_spawn_ok hs] at herr
        cases herr
    · rintro ⟨e, hs⟩
      exact ⟨ManifestBuilderError.CallBuilderError e, build_eq_of_spawn_error hs⟩
  · intro e hs
    exact build_eq_of_spawn_error hs
  · intro child hs
    exact ⟨build_eq_of_spawn_ok hs, fun t ht => childDrain_exitEvents ht⟩

theorem build_sync_error_iff_launch_failure_witness :
    FloxBuildMk.build
        { spawn := fun _ => Except.ok { stdoutReads := [], stderrReads := [], status := 3 }
          output := fun _ => Except.error "unused" }
        { flox_build_mk := "flox-build.mk", gnumake_bin := "make" }
        "base" "env" ["pkg"] =
      Except.ok { stdoutReads := [], stderrReads := [], status := 3 } :=
  ((build_sync_error_iff_launch_failure
      { spawn := fun _ => Except.ok { stdoutReads := [], stderrReads := [], status := 3 }
        output := fun _ => Except.error "unused" }
      { flox_build_mk := "flox-build.mk", gnumake_bin := "make" }
      "base" "env" ["pkg"]).2.2
    { stdoutReads := [], stderrReads := [], status := 3 } rfl).1

/-- C3: when the clean driver process runs to completion with captured
output `out`, clean returns unit exactly when the exit status is
success, and otherwise the `RunClean` error carrying the fully captured
stdout, stderr and exit status of the run. -/
theorem clean_status_spec (os : BuildOs) (cfg : BuildConfig)
    (base_dir flox_env : String) (packages : List String) (out : CapturedOutput)
    (h : os.output (FloxBuildMk.clean_command cfg base_dir flox_env packages) =
      Except.ok out) :
    FloxBuildMk.clean os cfg base_dir flox_env packages =
      (if ExitStatus.success out.status then Except.ok ()
       else Except.error
         (ManifestBuilderError.RunClean out.stdout out.stderr out.status)) ∧
    ((∃ err, FloxBuildMk.clean os cfg base_dir flox_env packages = Except.error err) ↔
      ¬ ExitStatus.success out.status) := by
  have hc : FloxBuildMk.clean os cfg base_dir flox_env packages =
      (if !ExitStatus.success out.status then
        Except.error (ManifestBuilderError.RunClean out.stdout out.stderr out.status)
       else Except.ok ()) := by
    unfold FloxBuildMk.clean
    rw [h]
  rcases Bool.eq_false_or_eq_true (ExitStatus.success out.status) with hsucc | hsucc
  · have hclean : FloxBuildMk.clean os cfg base_dir flox_env packages = Except.ok () := by
      rw [hc, hsucc]
      simp
    refine ⟨?_, ?_⟩
    · rw [hclean, hsucc]
      simp
    · constructor
      · rintro ⟨err, herr⟩
        rw [hclean] at herr
        cases herr
      · intro hfalse
        exact absurd hsucc hfalse
  · have hclean : FloxBuildMk.clean os cfg base_dir flox_env packages =
        Except.error (ManifestBuilderError.RunClean out.stdout out.stderr out.status) := by
      rw [hc, hsucc]
      simp
    refine ⟨?_, ?_⟩
    · rw [hclean, hsucc]
      simp
    · constructor
      · intro _
        simp [hsucc]
      · intro _
        exact ⟨_, hclean⟩

theorem clean_status_spec_witness :
    FloxBuildMk.clean
        { spawn := fun _ => Except.error "unused"
          output := fun _ => Except.ok { stdout := "so", stderr := "se", status := 2 } }
        { flox_build_mk := "flox-build.mk", gnumake_bin := "make" }
        "base" "env" [] =
      Except.error (ManifestBuilderError.RunClean "so" "se" 2) := by
  have h := (clean_status_spec
    { spawn := fun _ => Except.error "unused"
      output := fun _ => Except.ok { stdout := "so", stderr := "se", status := 2 } }
    { flox_build_mk := "flox-build.mk", gnumake_bin := "make" }
    "base" "env" [] { stdout := "so", stderr := "se", status := 2 } rfl).1
  simpa [ExitStatus.success] using h

theorem wait_of_stdin_some {s : RuntimeSink} {bs : List Nat}
    (h : s.child.stdin = some bs) :
    s.wait = some
      ((if ExitStatus.success s.child.status then Except.ok ()
        else Except.error SinkError.UnderlyingProcessFailed),
       { child := { stdin := none, status := s.child.status } }) := by
  unfold RuntimeSink.wait RuntimeSink.flush
  rw [h]
  cases hsucc : ExitStatus.success s.child.status <;> simp [hsucc]

/-- C5: on a subprocess-backed sink whose stdin handle is present,
finalize flushes, closes the input pipe (the resulting sink has no
stdin handle any more), waits for the child, and returns an error if
and only if the exit status is not success — whatever bytes the
preceding successful writes put into the pipe. -/
theorem runtime_sink_wait_spec (s : RuntimeSink) (bs : List Nat)
    (h : s.child.stdin = some bs) :
    s.wait = some
      ((if ExitStatus.success s.child.status then Except.ok ()
        else Except.error SinkError.UnderlyingProcessFailed),
       { child := { stdin := none, status := s.child.status } }) ∧
    ((∃ s3, s.wait = some (Except.error SinkError.UnderlyingProcessFailed, s3)) ↔
      ¬ ExitStatus.success s.child.status) ∧
    ((∃ s3, s.wait = some (Except.ok (), s3)) ↔ ExitStatus.success s.child.status) := by
  have hw := wait_of_stdin_some h
  refine ⟨hw, ?_, ?_⟩
  · cases hsucc : ExitStatus.success s.child.status with
    | true =>
      rw [hsucc] at hw
      simp only [if_pos rfl] at hw
      constructor
      · rintro ⟨s3, hs3⟩
        rw [hw] at hs3
        cases hs3
      · intro hfalse
        exact absurd rfl hfalse
    | false =>
      rw [hsucc] at hw
      simp only [Bool.false_eq_true, if_neg] at hw
      constructor
      · intro _
        simp
      · intro _
        exact ⟨_, by simpa using hw⟩
  · cases hsucc : ExitStatus.success s.child.status with
    | true =>
      rw [hsucc] at hw
      simp only [if_pos rfl] at hw
      exact ⟨fun _ => rfl, fun _ => ⟨_, hw⟩⟩
    | false =>
      rw [hsucc] at hw
      simp only [Bool.false_eq_true, if_neg] at hw
      constructor
      · rintro ⟨s3, hs3⟩
        rw [hw] at hs3
        cases hs3
      · intro htrue
        cases htrue

theorem runtime_sink_wait_spec_witness :
    RuntimeSink.wait { child := { stdin := some [7], status := 3 } } =
      some (Except.error SinkError.UnderlyingProcessFailed,
        { child := { stdin := none, status := 3 } }) := by
  have h := (runtime_sink_wait_spec { child := { stdin := some [7], status := 3 } }
    [7] rfl).1
  simpa [ExitStatus.success] using h

theorem applyOps_stdin_some (ops : List SinkOp) :
    ∀ (s : RuntimeSink) (bs : List Nat), s.child.stdin = some bs →
      ∃ s1 bs1, s.applyOps ops = some s1 ∧ s1.child.stdin = some bs1 := by
  induction ops with
  | nil => exact fun s bs h => ⟨s, bs, rfl, h⟩
  | cons op rest ih =>
    intro s bs h
    cases op with
    | write buf =>
      have hw : s.write buf =
          some (buf.length, { child := { s.child with stdin := some (bs ++ buf) } }) := by
        unfold RuntimeSink.write
        rw [h]
      obtain ⟨s1, bs1, ha, hs1⟩ :=
        ih { child := { s.child with stdin := some (bs ++ buf) } } (bs ++ buf) rfl
      refine ⟨s1, bs1, ?_, hs1⟩
      unfold RuntimeSink.applyOps
      rw [hw]
      exact ha
    | flush =>
      have hf : s.flush = some s := by
        unfold RuntimeSink.flush
        rw [h]
      obtain ⟨s1, bs1, ha, hs1⟩ := ih s bs h
      refine ⟨s1, bs1, ?_, hs1⟩
      unfold RuntimeSink.applyOps
      rw [hf]
      exact ha

/-- C8: a sink constructed by the runtime loader has the stdin handle
of its child present, any sequence of write and flush operations before
finalize succeeds (the unwrap on the handle is never reached) and keeps
the handle present, and finalize then consumes the handle — so a
finalized sink is exactly one whose write path would reach the unwrap
on a missing handle. -/
theorem runtime_sink_unwrap_unreachable (r : Runtime) (status : ExitStatus)
    (ops : List SinkOp) (s0 : RuntimeSink)
    (h : r.to_writer (Except.ok status) = Except.ok s0) :
    s0.child.stdin = some [] ∧
    (∃ s1 bs1, s0.applyOps ops = some s1 ∧ s1.child.stdin = some bs1 ∧
      ∃ res, s1.wait = some (res, { child := { stdin := none, status := s1.child.status } })) ∧
    (∀ s2 : RuntimeSink, s2.child.stdin = none → s2.write [] = none ∧ s2.flush = none) := by
  have hok : Except.ok { child := { stdin := some [], status := status } } =
      Except.ok s0 := h
  have hs0 : ({ child := { stdin := some [], status := status } } : RuntimeSink) = s0 :=
    Except.ok.inj hok
  subst hs0
  refine ⟨rfl, ?_, ?_⟩
  · obtain ⟨s1, bs1, ha, hs1⟩ := applyOps_stdin_some ops
      { child := { stdin := some [], status := status } } [] rfl
    exact ⟨s1, bs1, ha, hs1, ⟨_, wait_of_stdin_some hs1⟩⟩
  · intro s2 h2
    constructor
    · unfold RuntimeSink.write
      rw [h2]
    · unfold RuntimeSink.flush
      rw [h2]

theorem runtime_sink_unwrap_unreachable_witness :
    (RuntimeSink.applyOps { child := { stdin := some [], status := 0 } }
        [SinkOp.write [1, 2], SinkOp.flush, SinkOp.write [3]]).isSome = true := by
  obtain ⟨-, ⟨s1, bs1, ha, -, -⟩, -⟩ := runtime_sink_unwrap_unreachable Runtime.Docker 0
    [SinkOp.write [1, 2], SinkOp.flush, SinkOp.write [3]]
    { child := { stdin := some [], status := 0 } } rfl
  rw [ha]
  rfl

/-- C9: run_in_nix decides success by stderr content, not exit status:
when the child runs and both captured streams decode as UTF-8, it
returns the decoded stdout exactly when the decoded stderr is empty and
an error carrying the stderr text otherwise, with the exit status never
consulted (it is universally quantified here and unused) — so a
non-zero exit with empty stderr is success and a zero exit with
non-empty stderr is failure. -/
theorem run_in_nix_stderr_decides (output : List String → Except String NixProcOutput)
    (args : List String) (out : NixProcOutput) (s e : String)
    (hout : output args = Except.ok out)
    (hs : out.stdout = Except.ok s) (he : out.stderr = Except.ok e) :
    (e.isEmpty → NixCommandLine.run_in_nix output args = Except.ok s) ∧
    (¬ e.isEmpty →
      NixCommandLine.run_in_nix output args =
        Except.error (NixRunError.NixResponseError e)) ∧
    ((∃ v, NixCommandLine.run_in_nix output args = Except.ok v) ↔ e.isEmpty) := by
  have hrun : NixCommandLine.run_in_nix output args =
      (if !e.isEmpty then Except.error (NixRunError.NixResponseError e)
       else Except.ok s) := by
    simp only [NixCommandLine.run_in_nix, hout, hs, he]
  rcases Bool.eq_false_or_eq_true e.isEmpty with hemp | hemp
  · have hrun2 : NixCommandLine.run_in_nix output args = Except.ok s := by
      rw [hrun, hemp]
      simp
    refine ⟨fun _ => hrun2, fun hfalse => absurd hemp hfalse, ?_⟩
    exact ⟨fun _ => hemp, fun _ => ⟨s, hrun2⟩⟩
  · have hrun2 : NixCommandLine.run_in_nix output args =
        Except.error (NixRunError.NixResponseError e) := by
      rw [hrun, hemp]
      simp
    refine ⟨?_, fun _ => hrun2, ?_⟩
    · intro htrue
      rw [hemp] at htrue
      cases htrue
    · constructor
      · rintro ⟨v, hv⟩
        rw [hrun2] at hv
        cases hv
      · intro htrue
        rw [hemp] at htrue
        cases htrue

theorem run_in_nix_stderr_decides_witness :
    NixCommandLine.run_in_nix
        (fun _ => Except.ok
          { stdout := Except.ok "built"
            stderr := Except.ok ""
            status := 7 })
        ["eval"] =
      Except.ok "built" :=
  (run_in_nix_stderr_decides
    (fun _ => Except.ok
      { stdout := Except.ok "built"
        stderr := Except.ok ""
        status := 7 })
    ["eval"]
    { stdout := Except.ok "built"
      stderr := Except.ok ""
      status := 7 }
    "built" "" rfl rfl rfl).1 rfl

theorem nix_run_eq_ok {spawn : List String → Except String NixChild}
    {args : List String} {child : NixChild} {status : ExitStatus}
    (hspawn : spawn args = Except.ok child)
    (hwait : child.waitResult = Except.ok status) :
    NixCommandLine.run spawn args = Except.ok () := by
  simp only [NixCommandLine.run, hspawn, hwait]

/-- C10: the NixApi run operation discards the exit status of the
child: whenever the spawn succeeds and the wait call itself succeeds,
run returns unit whatever status the wait produced, and two such
invocations whose children exit with different statuses are
indistinguishable at this interface. -/
theorem nix_run_discards_exit_status (spawn : List String → Except String NixChild)
    (args : List String) (child : NixChild) (status : ExitStatus)
    (hspawn : spawn args = Except.ok child)
    (hwait : child.waitResult = Except.ok status) :
    NixCommandLine.run spawn args = Except.ok () ∧
    (∀ (spawn2 : List String → Except String NixChild) (child2 : NixChild)
        (status2 : ExitStatus),
      spawn2 args = Except.ok child2 → child2.waitResult = Except.ok status2 →
      NixCommandLine.run spawn args = NixCommandLine.run spawn2 args) := by
  refine ⟨nix_run_eq_ok hspawn hwait, ?_⟩
  intro spawn2 child2 status2 hspawn2 hwait2
  rw [nix_run_eq_ok hspawn hwait, nix_run_eq_ok hspawn2 hwait2]

theorem nix_run_discards_exit_status_witness :
    NixCommandLine.run (fun _ => Except.ok { waitResult := Except.ok 9 }) ["build"] =
      Except.ok () :=
  (nix_run_discards_exit_status (fun _ => Except.ok { waitResult := Except.ok 9 })
    ["build"] { waitResult := Except.ok 9 } 9 rfl rfl).1

end FloxSpec
